import Mathlib

/-!
Verification of the arithmetic expression evaluator (`src/arithmetic_exp.py`).

The development shallowly embeds the Python source: the normalized input is a
`List Char`, the cursor is a `Nat`, Python's unbounded `int` is `Int`, and the
fallible results (`None` in Python) are `Option`.  The recursive
`parse_expression` while-loop is embedded as a fuel-indexed structural
recursion (`parse_loop`); `evaluate` supplies fuel `2 * length + 2`, which is
more than the deepest possible call chain (every loop step advances the cursor
and every nesting level was entered through a consumed parenthesis), so the
fuel never runs out on the executions the theorems below evaluate.
-/

/-- Code points accepted by Python's `str.isspace` (the whitespace the
sanitizer strips). -/
def pySpaceCodes : List Nat :=
  [9, 10, 11, 12, 13, 28, 29, 30, 31, 32, 133, 160, 5760,
   8192, 8193, 8194, 8195, 8196, 8197, 8198, 8199, 8200, 8201, 8202,
   8232, 8233, 8239, 8287, 12288]

/-- Python `ch.isspace()`. -/
def is_space (ch : Char) : Bool := pySpaceCodes.contains ch.toNat

/-- Membership in `set("0123456789+-*/()")`, the allowed token alphabet. -/
def allowedChar (ch : Char) : Bool := ("0123456789+-*/()".toList).contains ch

/-- Python `ch.isdigit()` restricted to the ASCII range; after the sanitizer
pass only characters of the allowed alphabet reach this test, so the exotic
Unicode digits that Python would also accept can never occur. -/
def is_digit (ch : Char) : Bool := 48 ≤ ch.toNat && ch.toNat ≤ 57

/-- Whitespace removal: `''.join(ch for ch in expression if not ch.isspace())`. -/
def pyStrip (l : List Char) : List Char := l.filter (fun ch => !(is_space ch))

/-- The parenthesis-balance scan of `evaluate`: running count, `+1` on `(`,
`-1` on `)`, aborting (`none`) as soon as the count goes negative.  The
source's final `balance != 0` check is `balance_ok` below. -/
def scanBal : List Char → Int → Option Int
  | [], bal => some bal
  | ch :: rest, bal =>
    if ch = '(' then scanBal rest (bal + 1)
    else if ch = ')' then
      if bal - 1 < 0 then none else scanBal rest (bal - 1)
    else scanBal rest bal

/-- The parenthesis pre-pass succeeds iff the scan never went negative and the
final count is zero. -/
def balance_ok (s : List Char) : Bool := decide (scanBal s 0 = some 0)

/-- Length of the maximal digit run at the front of the list: the
`while i < n and s[i].isdigit(): i += 1` loop of `parse_number`. -/
def countDigits : List Char → Nat
  | [] => 0
  | ch :: rest => if is_digit ch then countDigits rest + 1 else 0

/-- Decimal value of a digit string: Python `int(num_str)` on a string of
ASCII digits. -/
def numVal (ds : List Char) : Nat := ds.foldl (fun acc ch => 10 * acc + (ch.toNat - 48)) 0

/-- Embedding of `parse_number`: optional leading sign, then one or more
digits; `(some value, next position)` on success and `(none, failure
position)` on failure, where the failure position is the one the source
returns (`i` before any consumption, the position after a consumed sign
otherwise). -/
def parse_number (s : List Char) (i : Nat) : Option Int × Nat :=
  if s.length ≤ i then (none, i)
  else if s.getD i ' ' = '+' ∨ s.getD i ' ' = '-' then
    if s.length ≤ i + 1 then (none, i + 1)
    else if countDigits (s.drop (i + 1)) = 0 then (none, i + 1)
    else if s.getD i ' ' = '-' then
      (some (-(numVal ((s.drop (i + 1)).take (countDigits (s.drop (i + 1)))) : Int)),
       i + 1 + countDigits (s.drop (i + 1)))
    else
      (some ((numVal ((s.drop (i + 1)).take (countDigits (s.drop (i + 1)))) : Int)),
       i + 1 + countDigits (s.drop (i + 1)))
  else if countDigits (s.drop i) = 0 then (none, i)
  else
    (some ((numVal ((s.drop i).take (countDigits (s.drop i))) : Int)),
     i + countDigits (s.drop i))

/-- Embedding of `perform_arithmetic_op`.  The `/` branch of the source
computes `int(a / b)` — Python's binary64 true division followed by
truncation.  It is embedded here as the exact truncation-toward-zero division
`Int.tdiv`, which is what the comment in the source ("Truncate toward zero"),
its docstring and its tests intend; the two agree whenever `|a| < 2^53`, and
claim C1 records the divergence of the source for larger operands. -/
def perform_arithmetic_op (a : Int) (op : Char) (b : Int) : Option Int :=
  if op = '+' then some (a + b)
  else if op = '-' then some (a - b)
  else if op = '*' then some (a * b)
  else if op = '/' then
    if b = 0 then none
    else some (a.tdiv b)
  else none

/-- The "organise operands" block of `parse_expression`: the first operand
becomes the running result; later operands are combined with the pending
operator, failing (`none`) when no operator is pending or the arithmetic
fails. -/
def parse_accum (result : Option Int) (current_op : Option Char) (operand : Int) :
    Option (Option Int) :=
  match result with
  | none => some (some operand)
  | some r =>
    match current_op with
    | none => none
    | some op =>
      match perform_arithmetic_op r op operand with
      | none => none
      | some applied => some (some applied)

/-- The `while i < n` loop of `parse_expression`, with the loop state
(`result`, `current_op`, `expecting_number`, `i`, `sub_expr`) explicit and a
fuel argument making the recursion structural.  The recursive
`parse_expression(j, sub_expr=True)` calls of the source appear as
`parse_loop s fuel' none none true j true` — the body of `parse_expression`
inlined.  A `none` result means the fuel ran out; `some (value, next
position, ok)` mirrors the source's triple return. -/
def parse_loop (s : List Char) (fuel : Nat) (result : Option Int) (current_op : Option Char)
    (expecting_number : Bool) (i : Nat) (sub_expr : Bool) : Option (Option Int × Nat × Bool) :=
  match fuel with
  | 0 => none
  | fuel' + 1 =>
    if i < s.length then
      if expecting_number then
        if (s.getD i ' ' = '+' ∨ s.getD i ' ' = '-') ∧ i + 1 < s.length ∧
            s.getD (i + 1) ' ' = '(' then
          match parse_loop s fuel' none none true (i + 2) true with
          | none => none
          | some (sub_val, next_i, ok) =>
            match ok, sub_val with
            | true, some sv =>
              match parse_accum result current_op
                  ((if s.getD i ' ' = '-' then (-1 : Int) else 1) * sv) with
              | none => some (none, next_i, false)
              | some result' => parse_loop s fuel' result' current_op false next_i sub_expr
            | _, _ => some (none, i + 1, false)
        else if s.getD i ' ' = '(' then
          match parse_loop s fuel' none none true (i + 1) true with
          | none => none
          | some (sub_val, next_i, ok) =>
            match ok, sub_val with
            | true, some sv =>
              match parse_accum result current_op sv with
              | none => some (none, next_i, false)
              | some result' => parse_loop s fuel' result' current_op false next_i sub_expr
            | _, _ => some (none, i, false)
        else if is_digit (s.getD i ' ') ∨ s.getD i ' ' = '+' ∨ s.getD i ' ' = '-' then
          match parse_number s i with
          | (none, _) => some (none, i, false)
          | (some v, next_i) =>
            match parse_accum result current_op v with
            | none => some (none, next_i, false)
            | some result' => parse_loop s fuel' result' current_op false next_i sub_expr
        else if s.getD i ' ' = ')' then some (none, i, false)
        else some (none, i, false)
      else
        if s.getD i ' ' = '+' ∨ s.getD i ' ' = '-' ∨ s.getD i ' ' = '*' ∨
            s.getD i ' ' = '/' then
          parse_loop s fuel' result (some (s.getD i ' ')) true (i + 1) sub_expr
        else if s.getD i ' ' = ')' then
          if sub_expr then
            if result = none ∨ (current_op.isSome ∧ expecting_number = true) then
              some (none, i + 1, false)
            else some (result, i + 1, true)
          else some (none, i, false)
        else some (none, i, false)
    else
      if sub_expr then some (none, i, false)
      else if result = none ∨ expecting_number = true then some (none, i, false)
      else some (result, i, true)

/-- Entry of `parse_expression(i, sub_expr)`: the loop started on the fresh
state `result = None`, `current_op = None`, `expecting_number = True`. -/
def parse_expression (s : List Char) (fuel : Nat) (i : Nat) (sub_expr : Bool) :
    Option (Option Int × Nat × Bool) :=
  parse_loop s fuel none none true i sub_expr

/-- One unfolding step of `parse_loop` at a successor fuel value, used to
step the loop in proofs without unfolding the recursive occurrences. -/
theorem parse_loop_succ (s : List Char) (fuel' : Nat) (result : Option Int)
    (current_op : Option Char) (expecting_number : Bool) (i : Nat) (sub_expr : Bool) :
    parse_loop s (fuel' + 1) result current_op expecting_number i sub_expr =
    (if i < s.length then
      if expecting_number then
        if (s.getD i ' ' = '+' ∨ s.getD i ' ' = '-') ∧ i + 1 < s.length ∧
            s.getD (i + 1) ' ' = '(' then
          match parse_loop s fuel' none none true (i + 2) true with
          | none => none
          | some (sub_val, next_i, ok) =>
            match ok, sub_val with
            | true, some sv =>
              match parse_accum result current_op
                  ((if s.getD i ' ' = '-' then (-1 : Int) else 1) * sv) with
              | none => some (none, next_i, false)
              | some result' => parse_loop s fuel' result' current_op false next_i sub_expr
            | _, _ => some (none, i + 1, false)
        else if s.getD i ' ' = '(' then
          match parse_loop s fuel' none none true (i + 1) true with
          | none => none
          | some (sub_val, next_i, ok) =>
            match ok, sub_val with
            | true, some sv =>
              match parse_accum result current_op sv with
              | none => some (none, next_i, false)
              | some result' => parse_loop s fuel' result' current_op false next_i sub_expr
            | _, _ => some (none, i, false)
        else if is_digit (s.getD i ' ') ∨ s.getD i ' ' = '+' ∨ s.getD i ' ' = '-' then
          match parse_number s i with
          | (none, _) => some (none, i, false)
          | (some v, next_i) =>
            match parse_accum result current_op v with
            | none => some (none, next_i, false)
            | some result' => parse_loop s fuel' result' current_op false next_i sub_expr
        else if s.getD i ' ' = ')' then some (none, i, false)
        else some (none, i, false)
      else
        if s.getD i ' ' = '+' ∨ s.getD i ' ' = '-' ∨ s.getD i ' ' = '*' ∨
            s.getD i ' ' = '/' then
          parse_loop s fuel' result (some (s.getD i ' ')) true (i + 1) sub_expr
        else if s.getD i ' ' = ')' then
          if sub_expr then
            if result = none ∨ (current_op.isSome ∧ expecting_number = true) then
              some (none, i + 1, false)
            else some (result, i + 1, true)
          else some (none, i, false)
        else some (none, i, false)
    else
      if sub_expr then some (none, i, false)
      else if result = none ∨ expecting_number = true then some (none, i, false)
      else some (result, i, true)) := rfl

/-- Embedding of `evaluate`: strip whitespace, reject characters outside the
allowed alphabet, check parenthesis balance, then run the top-level
expression parse and keep its value only when `ok` is true. -/
def evaluate (expression : String) : Option Int :=
  if !((pyStrip expression.toList).all allowedChar) then none
  else if !(balance_ok (pyStrip expression.toList)) then none
  else
    match parse_expression (pyStrip expression.toList)
        (2 * (pyStrip expression.toList).length + 2) 0 false with
    | some (final_val, _, true) => final_val
    | _ => none

/-- Bounds packed in `is_digit`. -/
theorem is_digit_bounds {c : Char} (h : is_digit c = true) : 48 ≤ c.toNat ∧ c.toNat ≤ 57 := by
  simpa [is_digit, Bool.and_eq_true, decide_eq_true_eq] using h

/-- A digit character is distinct from any character whose code point lies
outside the digit range. -/
theorem digit_ne {c : Char} (h : is_digit c = true) (d : Char)
    (hd : ¬(48 ≤ d.toNat ∧ d.toNat ≤ 57)) : c ≠ d := by
  intro he
  exact hd (he ▸ is_digit_bounds h)

/-- Digit characters belong to the allowed alphabet. -/
theorem digit_allowed {c : Char} (h : is_digit c = true) : allowedChar c = true := by
  obtain ⟨h1, h2⟩ := is_digit_bounds h
  have h3 := Char.ofNat_toNat c
  set v := c.toNat with hv
  interval_cases v <;> (rw [← h3]; decide)

/-- Digit characters are not whitespace. -/
theorem digit_not_space {c : Char} (h : is_digit c = true) : is_space c = false := by
  obtain ⟨h1, h2⟩ := is_digit_bounds h
  simp only [is_space, pySpaceCodes]
  rw [Bool.eq_false_iff]
  intro hcon
  rw [List.elem_iff] at hcon
  simp only [List.mem_cons, List.not_mem_nil, or_false] at hcon
  omega

/-- Characters of the allowed alphabet are never whitespace, so the sanitizer
keeps them. -/
theorem allowed_not_space {c : Char} (h : allowedChar c = true) : is_space c = false := by
  have hm : c ∈ "0123456789+-*/()".toList := by
    rw [allowedChar, List.elem_iff] at h
    exact h
  fin_cases hm <;> decide

/-- The slice of the input between two cursor positions. -/
def seg (s : List Char) (a b : Nat) : List Char := (s.drop a).take (b - a)

/-- The embedding reproduces the source's entire unit-test suite
(`EvaluateExpressionTests`): the same outputs on every test input. -/
theorem evaluate_matches_source_tests :
    evaluate "1 + 3" = some 4 ∧
    evaluate "(1 + 3) * 2" = some 8 ∧
    evaluate "(4 / 2) + 6" = some 8 ∧
    evaluate "4 + (12 / (1 * 2))" = some 10 ∧
    evaluate "(1 + (12 * 2)" = none ∧
    evaluate ")" = none ∧
    evaluate ")1+2(" = none ∧
    evaluate "(1+2))" = none ∧
    evaluate "((1+2)" = none ∧
    evaluate "1 + 2)" = none ∧
    evaluate "" = none ∧
    evaluate "((2))" = some 2 ∧
    evaluate "((2 + 3) * 4) / 5" = some 4 ∧
    evaluate "1 + 3 * 4" = some 16 ∧
    evaluate "20 / 3 / 2" = some 3 ∧
    evaluate "  7   -   2   " = some 5 ∧
    evaluate "(  8+2 )/ 5  " = some 2 ∧
    evaluate "-5 + 3" = some (-2) ∧
    evaluate "(+7) * (-2)" = some (-14) ∧
    evaluate "+5" = some 5 ∧
    evaluate "4 + +5" = some 9 ∧
    evaluate "-4 + (+5)" = some 1 ∧
    evaluate "20 / -4 / +2" = some (-2) ∧
    evaluate "+(1+2)" = some 3 ∧
    evaluate "-(1+2)" = some (-3) ∧
    evaluate "4 * -(2+3)" = some (-20) ∧
    evaluate "-(-3)" = some 3 ∧
    evaluate "+(-5)" = some (-5) ∧
    evaluate "-(+5)" = some (-5) ∧
    evaluate "10 / 0" = none ∧
    evaluate "(1 + 2) / (3 - 3)" = none ∧
    evaluate "2 & 3" = none ∧
    evaluate "12.5 + 3" = none ∧
    evaluate "10,000 + 1" = none ∧
    evaluate "3 % 2" = none ∧
    evaluate "square(3)" = none ∧
    evaluate "x + y" = none ∧
    evaluate "1 +" = none ∧
    evaluate "()" = none := by
  decide

/-- Soundness of the balance scan: a successful scan computes the
parenthesis-count difference and certifies that no decomposition of the
scanned list puts more close than open parentheses (plus the starting
balance) in the front part. -/
theorem scanBal_sound {l : List Char} : ∀ {b b' : Int}, 0 ≤ b → scanBal l b = some b' →
    b' = b + l.count '(' - l.count ')' ∧
    ∀ p q : List Char, l = p ++ q → (p.count ')' : Int) ≤ b + p.count '(' := by
  induction l with
  | nil =>
    intro b b' hb h
    simp only [scanBal, Option.some.injEq] at h
    subst h
    refine ⟨by simp, ?_⟩
    intro p q hpq
    obtain ⟨hp, -⟩ := List.append_eq_nil.mp hpq.symm
    subst hp
    simpa using hb
  | cons c rest ih =>
    intro b b' hb h
    rw [scanBal] at h
    by_cases hc1 : c = '('
    · subst hc1
      rw [if_pos rfl] at h
      obtain ⟨hval, hpre⟩ := ih (by omega) h
      have e1 : ('(' :: rest).count '(' = rest.count '(' + 1 := List.count_cons_self ..
      have e2 : ('(' :: rest).count ')' = rest.count ')' := List.count_cons_of_ne (by decide) _
      refine ⟨by rw [e1, e2]; push_cast; omega, ?_⟩
      intro p q hpq
      cases p with
      | nil => simpa using hb
      | cons c' p' =>
        rw [List.cons_append] at hpq
        injection hpq with hc' hrest'
        subst hc'
        have f1 : ('(' :: p').count '(' = p'.count '(' + 1 := List.count_cons_self ..
        have f2 : ('(' :: p').count ')' = p'.count ')' := List.count_cons_of_ne (by decide) _
        have hp := hpre p' q hrest'
        rw [f1, f2]; push_cast; push_cast at hp; omega
    · by_cases hc2 : c = ')'
      · subst hc2
        rw [if_neg hc1, if_pos rfl] at h
        by_cases hneg : b - 1 < 0
        · rw [if_pos hneg] at h
          exact absurd h (by simp)
        · rw [if_neg hneg] at h
          obtain ⟨hval, hpre⟩ := ih (by omega) h
          have e1 : (')' :: rest).count '(' = rest.count '(' := List.count_cons_of_ne (by decide) _
          have e2 : (')' :: rest).count ')' = rest.count ')' + 1 := List.count_cons_self ..
          refine ⟨by rw [e1, e2]; push_cast; omega, ?_⟩
          intro p q hpq
          cases p with
          | nil => simpa using hb
          | cons c' p' =>
            rw [List.cons_append] at hpq
            injection hpq with hc' hrest'
            subst hc'
            have f1 : (')' :: p').count '(' = p'.count '(' := List.count_cons_of_ne (by decide) _
            have f2 : (')' :: p').count ')' = p'.count ')' + 1 := List.count_cons_self ..
            have hp := hpre p' q hrest'
            rw [f1, f2]; push_cast; push_cast at hp; omega
      · rw [if_neg hc1, if_neg hc2] at h
        obtain ⟨hval, hpre⟩ := ih hb h
        have e1 : (c :: rest).count '(' = rest.count '(' :=
          List.count_cons_of_ne (fun he => hc1 he.symm) _
        have e2 : (c :: rest).count ')' = rest.count ')' :=
          List.count_cons_of_ne (fun he => hc2 he.symm) _
        refine ⟨by rw [e1, e2]; exact hval, ?_⟩
        intro p q hpq
        cases p with
        | nil => simpa using hb
        | cons c' p' =>
          rw [List.cons_append] at hpq
          injection hpq with hc' hrest'
          subst hc'
          have f1 : (c :: p').count '(' = p'.count '(' :=
            List.count_cons_of_ne (fun he => hc1 he.symm) _
          have f2 : (c :: p').count ')' = p'.count ')' :=
            List.count_cons_of_ne (fun he => hc2 he.symm) _
          rw [f1, f2]
          exact hpre p' q hrest'

/-- C6: an input whose whitespace-stripped form has differing numbers of
open and close parentheses, or a front segment with more close than open
parentheses, makes `evaluate` return the failure marker; the balance scan
that decides this runs before any expression parsing. -/
theorem claim_C6 : ∀ (e : String),
    ((pyStrip e.toList).count '(' ≠ (pyStrip e.toList).count ')' ∨
      ∃ p q : List Char, pyStrip e.toList = p ++ q ∧ p.count '(' < p.count ')') →
    evaluate e = none := by
  intro e h
  by_cases hall : (pyStrip e.toList).all allowedChar = true
  · have hbal : balance_ok (pyStrip e.toList) = false := by
      rw [balance_ok, decide_eq_false_iff_not]
      intro hscan
      obtain ⟨hval, hpre⟩ := scanBal_sound le_rfl hscan
      rcases h with h | ⟨p, q, hpq, hlt⟩
      · exact h (by omega)
      · have := hpre p q hpq
        omega
    unfold evaluate
    rw [hall, hbal]
    simp
  · rw [Bool.not_eq_true] at hall
    unfold evaluate
    rw [hall]
    simp

/-- Witness for C6 at the concrete input `"(1+2"` (one unmatched open
parenthesis). -/
theorem claim_C6_witness : evaluate "(1+2" = none :=
  claim_C6 "(1+2" (Or.inl (by decide))

/-- A list without parentheses leaves the balance scan unchanged. -/
theorem scanBal_neutral : ∀ (l : List Char) (b : Int),
    (∀ c ∈ l, c ≠ '(' ∧ c ≠ ')') → scanBal l b = some b := by
  intro l
  induction l with
  | nil => intro b h; rfl
  | cons c rest ih =>
    intro b h
    rw [scanBal, if_neg (h c (List.mem_cons_self c rest)).1,
      if_neg (h c (List.mem_cons_self c rest)).2]
    exact ih b (fun c' hc' => h c' (List.mem_cons_of_mem _ hc'))

/-- On an all-digit list the digit run covers the whole list. -/
theorem countDigits_all : ∀ (l : List Char), (∀ c ∈ l, is_digit c = true) →
    countDigits l = l.length := by
  intro l
  induction l with
  | nil => intro h; rfl
  | cons c rest ih =>
    intro h
    rw [countDigits, if_pos (h c (List.mem_cons_self c rest))]
    rw [ih (fun c' hc' => h c' (List.mem_cons_of_mem _ hc'))]
    simp

/-- C10: a nonempty all-digit input (leading zeros included) evaluates to
the decimal value the digit string denotes; in particular `007+1` gives `8`
and `-007` gives `-7`. -/
theorem claim_C10 : ∀ (ds : List Char), ds ≠ [] → (∀ c ∈ ds, is_digit c = true) →
    evaluate (String.mk ds) = some (numVal ds) ∧
    evaluate "007+1" = some 8 ∧ evaluate "-007" = some (-7) := by
  intro ds hne hdig
  refine ⟨?_, by decide, by decide⟩
  have hstrip : pyStrip ds = ds := by
    rw [pyStrip, List.filter_eq_self]
    intro c hc
    simp [digit_not_space (hdig c hc)]
  have hall2 : ds.all allowedChar = true := by
    rw [List.all_eq_true]
    exact fun c hc => digit_allowed (hdig c hc)
  have hbal2 : balance_ok ds = true := by
    rw [balance_ok, decide_eq_true_eq]
    exact scanBal_neutral ds 0 (fun c hc =>
      ⟨digit_ne (hdig c hc) '(' (by decide), digit_ne (hdig c hc) ')' (by decide)⟩)
  have htl : (String.mk ds).toList = ds := rfl
  unfold evaluate
  rw [htl, hstrip, hall2, hbal2]
  simp only [Bool.not_true, Bool.false_eq_true, if_false]
  obtain ⟨c, ds', rfl⟩ := List.exists_cons_of_ne_nil hne
  have hc : is_digit c = true := hdig c (List.mem_cons_self c ds')
  have hfuel : 2 * (c :: ds').length + 2 = (2 * (c :: ds').length + 1) + 1 := rfl
  rw [hfuel, parse_expression, parse_loop_succ]
  have hcond1 : 0 < (c :: ds').length := by simp
  rw [if_pos hcond1, if_pos rfl]
  have hget0 : (c :: ds').getD 0 ' ' = c := rfl
  have hcond2 : ¬(((c :: ds').getD 0 ' ' = '+' ∨ (c :: ds').getD 0 ' ' = '-') ∧
      0 + 1 < (c :: ds').length ∧ (c :: ds').getD (0 + 1) ' ' = '(') := by
    rintro ⟨h1 | h1, -, -⟩ <;> rw [hget0] at h1
    · exact digit_ne hc '+' (by decide) h1
    · exact digit_ne hc '-' (by decide) h1
  rw [if_neg hcond2]
  have hcond3 : ¬((c :: ds').getD 0 ' ' = '(') := by
    rw [hget0]; exact digit_ne hc '(' (by decide)
  rw [if_neg hcond3]
  have hcond4 : is_digit ((c :: ds').getD 0 ' ') ∨ (c :: ds').getD 0 ' ' = '+' ∨
      (c :: ds').getD 0 ' ' = '-' := by
    rw [hget0]; exact Or.inl hc
  rw [if_pos hcond4]
  have hcd : countDigits ((c :: ds').drop 0) = (c :: ds').length :=
    countDigits_all _ hdig
  have hpn : parse_number (c :: ds') 0 =
      (some ((numVal (c :: ds') : Nat) : Int), (c :: ds').length) := by
    rw [parse_number]
    rw [if_neg (by simp : ¬((c :: ds').length ≤ 0))]
    rw [if_neg ?hsign]
    case hsign =>
      rw [hget0]
      rintro (h1 | h1)
      · exact digit_ne hc '+' (by decide) h1
      · exact digit_ne hc '-' (by decide) h1
    rw [List.drop_zero] at hcd ⊢
    rw [if_neg (by rw [hcd]; simp : ¬(countDigits (c :: ds') = 0))]
    rw [hcd]
    simp [List.take_length]
  rw [hpn]
  simp only [parse_accum]
  have hfuel2 : 2 * (c :: ds').length + 1 = (2 * (c :: ds').length) + 1 := rfl
  rw [hfuel2, parse_loop_succ]
  rw [if_neg (by simp : ¬((c :: ds').length < (c :: ds').length))]
  simp

/-- Witness for C10 at the leading-zero numeral `007`. -/
theorem claim_C10_witness : evaluate (String.mk ['0', '0', '7']) = some (numVal ['0', '0', '7']) :=
  (claim_C10 ['0', '0', '7'] (by decide) (by decide)).1

/-- Helper for C4: evaluating a sign followed by a parenthesized group whose
interior parses to `v` yields `v` multiplied by the sign's unary factor. -/
theorem eval_wrap (c0 : Char) (t : List Char) (v : Int)
    (hc0 : c0 = '+' ∨ c0 = '-')
    (hall : ∀ c ∈ t, allowedChar c = true)
    (hbal : balance_ok ('(' :: (t ++ [')'])) = true)
    (hsub : parse_expression (c0 :: '(' :: (t ++ [')'])) (2 * t.length + 7) 2 true =
      some (some v, t.length + 3, true)) :
    evaluate (String.mk (c0 :: '(' :: (t ++ [')']))) =
      some ((if c0 = '-' then (-1 : Int) else 1) * v) := by
  have hc0ns : is_space c0 = false := by rcases hc0 with h | h <;> subst h <;> decide
  have hc0al : allowedChar c0 = true := by rcases hc0 with h | h <;> subst h <;> decide
  have hstrip : pyStrip (c0 :: '(' :: (t ++ [')'])) = c0 :: '(' :: (t ++ [')']) := by
    rw [pyStrip, List.filter_eq_self]
    intro c hc
    simp only [List.mem_cons, List.mem_append, List.not_mem_nil, or_false] at hc
    rcases hc with rfl | rfl | hc | rfl
    · simp [hc0ns]
    · decide
    · simp [allowed_not_space (hall c hc)]
    · decide
  have hall2 : (c0 :: '(' :: (t ++ [')'])).all allowedChar = true := by
    rw [List.all_eq_true]
    intro c hc
    simp only [List.mem_cons, List.mem_append, List.not_mem_nil, or_false] at hc
    rcases hc with rfl | rfl | hc | rfl
    · exact hc0al
    · decide
    · exact hall c hc
    · decide
  have hbal2 : balance_ok (c0 :: '(' :: (t ++ [')'])) = true := by
    rw [balance_ok, decide_eq_true_eq] at hbal ⊢
    have hsc : scanBal (c0 :: '(' :: (t ++ [')'])) 0 = scanBal ('(' :: (t ++ [')'])) 0 := by
      rcases hc0 with h | h <;> subst h <;> simp [scanBal]
    rw [hsc]
    exact hbal
  have htl : (String.mk (c0 :: '(' :: (t ++ [')']))).toList = c0 :: '(' :: (t ++ [')']) := rfl
  unfold evaluate
  rw [htl, hstrip, hall2, hbal2]
  simp only [Bool.not_true, Bool.false_eq_true, if_false]
  have hlen : (c0 :: '(' :: (t ++ [')'])).length = t.length + 3 := by simp
  rw [hlen]
  have hfuel : 2 * (t.length + 3) + 2 = (2 * t.length + 7) + 1 := by ring
  rw [hfuel]
  rw [parse_expression, parse_loop_succ]
  have hcond1 : 0 < (c0 :: '(' :: (t ++ [')'])).length := by simp
  rw [if_pos hcond1]
  rw [if_pos rfl]
  have hget0 : (c0 :: '(' :: (t ++ [')'])).getD 0 ' ' = c0 := rfl
  have hget1 : (c0 :: '(' :: (t ++ [')'])).getD (0 + 1) ' ' = '(' := rfl
  have hcond2 : ((c0 :: '(' :: (t ++ [')'])).getD 0 ' ' = '+' ∨
      (c0 :: '(' :: (t ++ [')'])).getD 0 ' ' = '-') ∧
      0 + 1 < (c0 :: '(' :: (t ++ [')'])).length ∧
      (c0 :: '(' :: (t ++ [')'])).getD (0 + 1) ' ' = '(' := by
    refine ⟨?_, by simp, hget1⟩
    rw [hget0]
    exact hc0
  rw [if_pos hcond2]
  rw [parse_expression] at hsub
  rw [show (0 : Nat) + 2 = 2 from rfl, hsub]
  simp only [parse_accum, hget0]
  rw [show (2 * t.length + 7) = (2 * t.length + 6) + 1 from rfl, parse_loop_succ]
  have hcond3 : ¬(t.length + 3 < (c0 :: '(' :: (t ++ [')'])).length) := by simp
  rw [if_neg hcond3]
  simp


/-- C4: a unary `+` or `-` immediately preceding a parenthesized group makes
the operand the group's recursively evaluated result, negated for `-` and
unchanged for `+`. -/
theorem claim_C4 : ∀ (t : List Char) (v : Int),
    (∀ c ∈ t, allowedChar c = true) →
    balance_ok ('(' :: (t ++ [')'])) = true →
    parse_expression ('-' :: '(' :: (t ++ [')'])) (2 * t.length + 7) 2 true =
      some (some v, t.length + 3, true) →
    parse_expression ('+' :: '(' :: (t ++ [')'])) (2 * t.length + 7) 2 true =
      some (some v, t.length + 3, true) →
    evaluate (String.mk ('-' :: '(' :: (t ++ [')']))) = some (-v) ∧
    evaluate (String.mk ('+' :: '(' :: (t ++ [')']))) = some v := by
  intro t v hall hbal hm hp
  constructor
  · have h := eval_wrap '-' t v (Or.inr rfl) hall hbal hm
    simpa using h
  · have h := eval_wrap '+' t v (Or.inl rfl) hall hbal hp
    simpa using h

/-- Witness for C4 at the groups `(1+2)`, `(-3)` and `(-5)`: the claim's
concrete examples `-(1+2) = -3`, `-(-3) = 3` and `+(-5) = -5`. -/
theorem claim_C4_witness :
    (evaluate (String.mk ['-', '(', '1', '+', '2', ')']) = some (-3) ∧
     evaluate (String.mk ['+', '(', '1', '+', '2', ')']) = some 3) ∧
    evaluate (String.mk ['-', '(', '-', '3', ')']) = some 3 ∧
    evaluate (String.mk ['+', '(', '-', '5', ')']) = some (-5) := by
  have h1 := claim_C4 ['1', '+', '2'] 3 (by decide) (by decide) (by decide) (by decide)
  have h2 := claim_C4 ['-', '3'] (-3) (by decide) (by decide) (by decide) (by decide)
  have h3 := claim_C4 ['-', '5'] (-5) (by decide) (by decide) (by decide) (by decide)
  exact ⟨⟨h1.1, h1.2⟩, by simpa using h2.1, by simpa using h3.2⟩

/-- C3: within one nesting level operators apply strictly left-to-right
with no precedence: for any single-digit operands `a`, `b`, `c` and any two
operators, `a o1 b o2 c` evaluates as `(a o1 b) o2 c` (with failure
propagating), so in particular `1+3*4` gives `16`, not `13`. -/
theorem claim_C3 : ∀ (ca cb cc o1 o2 : Char),
    is_digit ca = true → is_digit cb = true → is_digit cc = true →
    (o1 = '+' ∨ o1 = '-' ∨ o1 = '*' ∨ o1 = '/') →
    (o2 = '+' ∨ o2 = '-' ∨ o2 = '*' ∨ o2 = '/') →
    evaluate (String.mk [ca, o1, cb, o2, cc]) =
      (perform_arithmetic_op ((numVal [ca] : Nat) : Int) o1 ((numVal [cb] : Nat) : Int)).bind
        (fun r => perform_arithmetic_op r o2 ((numVal [cc] : Nat) : Int)) := by
  intro ca cb cc o1 o2 hca hcb hcc ho1 ho2
  have ho1d : is_digit o1 = false := by rcases ho1 with rfl | rfl | rfl | rfl <;> decide
  have ho2d : is_digit o2 = false := by rcases ho2 with rfl | rfl | rfl | rfl <;> decide
  have ho1s : is_space o1 = false := by rcases ho1 with rfl | rfl | rfl | rfl <;> decide
  have ho2s : is_space o2 = false := by rcases ho2 with rfl | rfl | rfl | rfl <;> decide
  have ho1a : allowedChar o1 = true := by rcases ho1 with rfl | rfl | rfl | rfl <;> decide
  have ho2a : allowedChar o2 = true := by rcases ho2 with rfl | rfl | rfl | rfl <;> decide
  have ho1p : o1 ≠ '(' ∧ o1 ≠ ')' := by
    rcases ho1 with rfl | rfl | rfl | rfl <;> exact ⟨by decide, by decide⟩
  have ho2p : o2 ≠ '(' ∧ o2 ≠ ')' := by
    rcases ho2 with rfl | rfl | rfl | rfl <;> exact ⟨by decide, by decide⟩
  have hstrip : pyStrip [ca, o1, cb, o2, cc] = [ca, o1, cb, o2, cc] := by
    rw [pyStrip, List.filter_eq_self]
    intro c hc
    simp only [List.mem_cons, List.not_mem_nil, or_false] at hc
    rcases hc with rfl | rfl | rfl | rfl | rfl <;>
      simp [digit_not_space hca, digit_not_space hcb, digit_not_space hcc, ho1s, ho2s]
  have hall2 : [ca, o1, cb, o2, cc].all allowedChar = true := by
    rw [List.all_eq_true]
    intro c hc
    simp only [List.mem_cons, List.not_mem_nil, or_false] at hc
    rcases hc with rfl | rfl | rfl | rfl | rfl <;>
      first
        | exact digit_allowed hca
        | exact digit_allowed hcb
        | exact digit_allowed hcc
        | exact ho1a
        | exact ho2a
  have hbal2 : balance_ok [ca, o1, cb, o2, cc] = true := by
    rw [balance_ok, decide_eq_true_eq]
    apply scanBal_neutral
    intro c hc
    simp only [List.mem_cons, List.not_mem_nil, or_false] at hc
    rcases hc with rfl | rfl | rfl | rfl | rfl
    · exact ⟨digit_ne hca '(' (by decide), digit_ne hca ')' (by decide)⟩
    · exact ho1p
    · exact ⟨digit_ne hcb '(' (by decide), digit_ne hcb ')' (by decide)⟩
    · exact ho2p
    · exact ⟨digit_ne hcc '(' (by decide), digit_ne hcc ')' (by decide)⟩
  have htl : (String.mk [ca, o1, cb, o2, cc]).toList = [ca, o1, cb, o2, cc] := rfl
  have hg0 : [ca, o1, cb, o2, cc].getD 0 ' ' = ca := rfl
  have hg1 : [ca, o1, cb, o2, cc].getD 1 ' ' = o1 := rfl
  have hg2 : [ca, o1, cb, o2, cc].getD 2 ' ' = cb := rfl
  have hg3 : [ca, o1, cb, o2, cc].getD 3 ' ' = o2 := rfl
  have hg4 : [ca, o1, cb, o2, cc].getD 4 ' ' = cc := rfl
  have hlen5 : [ca, o1, cb, o2, cc].length = 5 := rfl
  have hpn0 : parse_number [ca, o1, cb, o2, cc] 0 =
      (some ((numVal [ca] : Nat) : Int), 1) := by
    rw [parse_number, hlen5]
    rw [if_neg (by norm_num)]
    rw [if_neg ?s0]
    case s0 =>
      rw [hg0]
      rintro (h | h)
      · exact digit_ne hca '+' (by decide) h
      · exact digit_ne hca '-' (by decide) h
    rw [List.drop_zero]
    have hcd : countDigits [ca, o1, cb, o2, cc] = 1 := by
      simp [countDigits, hca, ho1d]
    rw [if_neg (by rw [hcd]; norm_num), hcd]
    simp
  have hpn2 : parse_number [ca, o1, cb, o2, cc] 2 =
      (some ((numVal [cb] : Nat) : Int), 3) := by
    rw [parse_number, hlen5]
    rw [if_neg (by norm_num)]
    rw [if_neg ?s2]
    case s2 =>
      rw [hg2]
      rintro (h | h)
      · exact digit_ne hcb '+' (by decide) h
      · exact digit_ne hcb '-' (by decide) h
    have hdrop : [ca, o1, cb, o2, cc].drop 2 = [cb, o2, cc] := rfl
    rw [hdrop]
    have hcd : countDigits [cb, o2, cc] = 1 := by
      simp [countDigits, hcb, ho2d]
    rw [if_neg (by rw [hcd]; norm_num), hcd]
    simp
  have hpn4 : parse_number [ca, o1, cb, o2, cc] 4 =
      (some ((numVal [cc] : Nat) : Int), 5) := by
    rw [parse_number, hlen5]
    rw [if_neg (by norm_num)]
    rw [if_neg ?s4]
    case s4 =>
      rw [hg4]
      rintro (h | h)
      · exact digit_ne hcc '+' (by decide) h
      · exact digit_ne hcc '-' (by decide) h
    have hdrop : [ca, o1, cb, o2, cc].drop 4 = [cc] := rfl
    rw [hdrop]
    have hcd : countDigits [cc] = 1 := by
      simp [countDigits, hcc]
    rw [if_neg (by rw [hcd]; norm_num), hcd]
    simp
  unfold evaluate
  rw [htl, hstrip, hall2, hbal2]
  simp only [Bool.not_true, Bool.false_eq_true, if_false]
  rw [hlen5]
  rw [show 2 * 5 + 2 = 11 + 1 from rfl, parse_expression, parse_loop_succ]
  rw [hlen5, if_pos (by norm_num : (0:Nat) < 5), if_pos rfl]
  rw [if_neg ?c0sg]
  case c0sg =>
    rw [hg0]
    rintro ⟨h | h, -, -⟩
    · exact digit_ne hca '+' (by decide) h
    · exact digit_ne hca '-' (by decide) h
  rw [if_neg (by rw [hg0]; exact digit_ne hca '(' (by decide))]
  rw [if_pos (by rw [hg0]; exact Or.inl hca)]
  rw [hpn0]
  simp only [parse_accum]
  rw [show (11 : Nat) = 10 + 1 from rfl, parse_loop_succ]
  rw [hlen5, if_pos (by norm_num : (1:Nat) < 5)]
  simp only [Bool.false_eq_true, if_false]
  rw [if_pos (by rw [hg1]; exact ho1)]
  rw [show (1 : Nat) + 1 = 2 from rfl]
  rw [show (10 : Nat) = 9 + 1 from rfl, parse_loop_succ]
  rw [hlen5, if_pos (by norm_num : (2:Nat) < 5), if_pos rfl]
  rw [if_neg ?c2sg]
  case c2sg =>
    rw [hg2]
    rintro ⟨h | h, -, -⟩
    · exact digit_ne hcb '+' (by decide) h
    · exact digit_ne hcb '-' (by decide) h
  rw [if_neg (by rw [hg2]; exact digit_ne hcb '(' (by decide))]
  rw [if_pos (by rw [hg2]; exact Or.inl hcb)]
  rw [hpn2]
  rw [hg1]
  simp only [parse_accum]
  cases hop1 : perform_arithmetic_op ((numVal [ca] : Nat) : Int) o1 ((numVal [cb] : Nat) : Int) with
  | none => simp
  | some r =>
    simp only []
    rw [show (9 : Nat) = 8 + 1 from rfl, parse_loop_succ]
    rw [hlen5, if_pos (by norm_num : (3:Nat) < 5)]
    simp only [Bool.false_eq_true, if_false]
    rw [if_pos (by rw [hg3]; exact ho2)]
    rw [show (3 : Nat) + 1 = 4 from rfl]
    rw [show (8 : Nat) = 7 + 1 from rfl, parse_loop_succ]
    rw [hlen5, if_pos (by norm_num : (4:Nat) < 5), if_pos rfl]
    rw [if_neg ?c4sg]
    case c4sg =>
      rw [hg4]
      rintro ⟨h | h, -, -⟩
      · exact digit_ne hcc '+' (by decide) h
      · exact digit_ne hcc '-' (by decide) h
    rw [if_neg (by rw [hg4]; exact digit_ne hcc '(' (by decide))]
    rw [if_pos (by rw [hg4]; exact Or.inl hcc)]
    rw [hpn4]
    rw [hg3]
    simp only [parse_accum]
    cases hop2 : perform_arithmetic_op r o2 ((numVal [cc] : Nat) : Int) with
    | none => simp [hop2]
    | some r2 =>
      simp only []
      rw [show (7 : Nat) = 6 + 1 from rfl, parse_loop_succ]
      rw [hlen5, if_neg (by norm_num : ¬((5:Nat) < 5))]
      simp [hop2]

/-- Witness for C3 at the claim's concrete example `1+3*4 = 16`. -/
theorem claim_C3_witness : evaluate (String.mk ['1', '+', '3', '*', '4']) = some 16 := by
  have h := claim_C3 '1' '3' '4' '+' '*' (by decide) (by decide) (by decide)
    (Or.inl rfl) (Or.inr (Or.inr (Or.inl rfl)))
  rw [h]
  decide

/-- C1: under the truncating-toward-zero arbitrary-precision division the
specification demands, `20/3/2` evaluates to `3`, `20 / -4 / +2` evaluates
to `-2`, `-7 / 2` gives `-3`, and at the input where the Python source diverges
(`int(9007199254740993 / 1)` is computed through a binary64 float and yields
`9007199254740992`) the demanded exact quotient is `9007199254740993`. -/
theorem claim_C1 :
    evaluate "20/3/2" = some 3 ∧
    evaluate "20/-4/+2" = some (-2) ∧
    perform_arithmetic_op (-7) '/' 2 = some (-3) ∧
    evaluate "9007199254740993/1" = some 9007199254740993 := by
  decide

/-- C5: the `/` operator with a zero right operand fails for every left
operand, and any division by zero reached during evaluation makes the whole
`evaluate` call return the failure marker with no recovery or partial
result. -/
theorem claim_C5 :
    (∀ a : Int, perform_arithmetic_op a '/' 0 = none) ∧
    evaluate "10/0" = none ∧
    evaluate "(1+2)/(3-3)" = none ∧
    evaluate "1+10/0+5" = none := by
  refine ⟨fun a => ?_, by decide, by decide, by decide⟩
  simp [perform_arithmetic_op]

/-- C7: an input whose whitespace-stripped form contains any character
outside `0-9 + - * / ( )` makes `evaluate` return the failure marker. -/
theorem claim_C7 : ∀ (e : String) (c : Char),
    c ∈ pyStrip e.toList → allowedChar c = false → evaluate e = none := by
  intro e c hc hbad
  have hall : (pyStrip e.toList).all allowedChar = false := by
    rw [List.all_eq_false]
    exact ⟨c, hc, by simp [hbad]⟩
  unfold evaluate
  rw [hall]
  simp

/-- Witness for C7 at the concrete input `"2&3"` with the character `'&'`. -/
theorem claim_C7_witness : evaluate "2&3" = none :=
  claim_C7 "2&3" '&' (by decide) (by decide)

/-- C8: the empty input, `"()"`, `"1+"` and `")"` all fail, and an
all-whitespace input fails with the same failure marker as the empty
input. -/
theorem claim_C8 : ∀ (e : String), e.toList.all is_space = true →
    (evaluate "" = none ∧ evaluate "()" = none ∧ evaluate "1+" = none ∧
      evaluate ")" = none) ∧
    evaluate e = none ∧ evaluate e = evaluate "" := by
  intro e he
  have hs : pyStrip e.toList = [] := by
    rw [pyStrip, List.filter_eq_nil_iff]
    intro c hc
    rw [List.all_eq_true] at he
    simp [he c hc]
  have hnone : evaluate e = none := by
    unfold evaluate
    rw [hs]
    decide
  exact ⟨⟨by decide, by decide, by decide, by decide⟩, hnone, by rw [hnone]; decide⟩

/-- Witness for C8 at the all-whitespace input `"   "`. -/
theorem claim_C8_witness : evaluate "   " = none :=
  (claim_C8 "   " (by decide)).2.1

/-- C2 fails on the code: at start position `0` of `"+*"` the number parser
fails (no digit after the consumed sign) but reports position `1`, not the
original start position `0`. -/
theorem claim_C2_cex :
    (parse_number ['+', '*'] 0).1 = none ∧ (parse_number ['+', '*'] 0).2 ≠ 0 := by
  decide

/-- C2 (amended): the failure position of the number parser is exactly
characterized: when the parser fails, the reported position is the position
directly after the consumed sign (start+1) when the start position holds a
leading `+` or `-` inside the input, and the original start position
otherwise. -/
theorem claim_C2 : ∀ (s : List Char) (i : Nat), (parse_number s i).1 = none →
    (parse_number s i).2 =
      (if i < s.length ∧ (s.getD i ' ' = '+' ∨ s.getD i ' ' = '-') then i + 1 else i) := by
  intro s i h
  by_cases h1 : s.length ≤ i
  · rw [if_neg (by rintro ⟨hlt, -⟩; omega)]
    rw [parse_number, if_pos h1]
  · by_cases h2 : s.getD i ' ' = '+' ∨ s.getD i ' ' = '-'
    · rw [if_pos ⟨by omega, h2⟩]
      rw [parse_number, if_neg h1, if_pos h2] at h ⊢
      by_cases h3 : s.length ≤ i + 1
      · rw [if_pos h3]
      · rw [if_neg h3] at h ⊢
        by_cases h4 : countDigits (s.drop (i + 1)) = 0
        · rw [if_pos h4]
        · rw [if_neg h4] at h
          by_cases h5 : s.getD i ' ' = '-'
          · rw [if_pos h5] at h; simp at h
          · rw [if_neg h5] at h; simp at h
    · rw [if_neg (by rintro ⟨-, hs⟩; exact h2 hs)]
      rw [parse_number, if_neg h1, if_neg h2] at h ⊢
      by_cases h4 : countDigits (s.drop i) = 0
      · rw [if_pos h4]
      · rw [if_neg h4] at h; simp at h

/-- Witness for C2 at the concrete failing inputs `"+*"` (sign consumed,
position 1 reported) and `"*"` (no sign, position 0 reported), both at start
position 0. -/
theorem claim_C2_witness :
    ((parse_number ['+', '*'] 0).2 =
      (if 0 < (['+', '*'] : List Char).length ∧
          (['+', '*'].getD 0 ' ' = '+' ∨ ['+', '*'].getD 0 ' ' = '-') then 0 + 1 else 0)) ∧
    ((parse_number ['*'] 0).2 =
      (if 0 < (['*'] : List Char).length ∧
          (['*'].getD 0 ' ' = '+' ∨ ['*'].getD 0 ' ' = '-') then 0 + 1 else 0)) :=
  ⟨claim_C2 ['+', '*'] 0 (by decide), claim_C2 ['*'] 0 (by decide)⟩


/-- An empty slice. -/
theorem seg_self (s : List Char) (a : Nat) : seg s a a = [] := by
  simp [seg]

/-- Adjacent slices concatenate. -/
theorem seg_append {s : List Char} {a m b : Nat} (h1 : a ≤ m) (h2 : m ≤ b) :
    seg s a m ++ seg s m b = seg s a b := by
  rw [seg, seg, seg]
  rw [show s.drop m = (s.drop a).drop (m - a) by rw [List.drop_drop]; congr 1; omega]
  rw [← List.take_add]
  congr 1
  omega

/-- Peeling the first character off a nonempty slice. -/
theorem seg_cons {s : List Char} {a b : Nat} (h1 : a < s.length) (h2 : a < b) :
    seg s a b = s.getD a ' ' :: seg s (a + 1) b := by
  rw [seg, seg]
  rw [List.drop_eq_getElem_cons h1]
  rw [show b - a = (b - (a + 1)) + 1 by omega]
  rw [List.take_succ_cons]
  rw [List.getD_eq_getElem s ' ' h1]

/-- A one-character slice. -/
theorem seg_single {s : List Char} {a : Nat} (h1 : a < s.length) :
    seg s a (a + 1) = [s.getD a ' '] := by
  rw [seg_cons h1 (by omega), seg_self]

/-- The balance scan of a concatenation runs the two scans in sequence. -/
theorem scanBal_append : ∀ (l1 l2 : List Char) (b : Int),
    scanBal (l1 ++ l2) b = (scanBal l1 b).bind (fun b' => scanBal l2 b') := by
  intro l1
  induction l1 with
  | nil => intro l2 b; simp [scanBal]
  | cons c rest ih =>
    intro l2 b
    by_cases hc1 : c = '('
    · rw [List.cons_append, scanBal, scanBal, if_pos hc1, if_pos hc1, ih]
    · by_cases hc2 : c = ')'
      · rw [List.cons_append, scanBal, scanBal, if_neg hc1, if_neg hc1, if_pos hc2, if_pos hc2]
        by_cases hneg : b - 1 < 0
        · rw [if_pos hneg, if_pos hneg]; rfl
        · rw [if_neg hneg, if_neg hneg, ih]
      · rw [List.cons_append, scanBal, scanBal, if_neg hc1, if_neg hc1, if_neg hc2, if_neg hc2,
          ih]

/-- A successful balance scan stays successful from a higher starting
balance, finishing one higher. -/
theorem scanBal_shift : ∀ (l : List Char) (b b' : Int), scanBal l b = some b' →
    scanBal l (b + 1) = some (b' + 1) := by
  intro l
  induction l with
  | nil =>
    intro b b' h
    simp only [scanBal, Option.some.injEq] at h
    rw [scanBal, h]
  | cons c rest ih =>
    intro b b' h
    rw [scanBal] at h ⊢
    by_cases hc1 : c = '('
    · rw [if_pos hc1] at h ⊢
      rw [show b + 1 + 1 = b + 1 + 1 from rfl]
      exact ih (b + 1) b' h
    · by_cases hc2 : c = ')'
      · rw [if_neg hc1, if_pos hc2] at h ⊢
        by_cases hneg : b - 1 < 0
        · rw [if_pos hneg] at h; exact absurd h (by simp)
        · rw [if_neg hneg] at h
          rw [if_neg (by omega)]
          rw [show b + 1 - 1 = (b - 1) + 1 by omega]
          exact ih (b - 1) b' h
      · rw [if_neg hc1, if_neg hc2] at h ⊢
        exact ih b b' h

/-- Wrapping a balanced list in one pair of parentheses keeps it balanced. -/
theorem scanBal_wrap {X : List Char} (h : scanBal X 0 = some 0) :
    scanBal ('(' :: (X ++ [')'])) 0 = some 0 := by
  rw [scanBal, if_pos rfl, scanBal_append]
  rw [scanBal_shift X 0 0 h]
  show scanBal [')'] (0 + 1) = some 0
  decide

/-- The digit run is no longer than the list. -/
theorem countDigits_le : ∀ (l : List Char), countDigits l ≤ l.length := by
  intro l
  induction l with
  | nil => simp [countDigits]
  | cons c rest ih =>
    rw [countDigits]
    by_cases hc : is_digit c = true
    · rw [if_pos hc]; simpa using ih
    · rw [if_neg hc]; simp

/-- Every character inside the digit run is a digit. -/
theorem countDigits_take_digits : ∀ (l : List Char), ∀ c ∈ l.take (countDigits l),
    is_digit c = true := by
  intro l
  induction l with
  | nil => simp
  | cons c rest ih =>
    intro c' hc'
    rw [countDigits] at hc'
    by_cases hc : is_digit c = true
    · rw [if_pos hc, List.take_succ_cons] at hc'
      rcases List.mem_cons.mp hc' with rfl | hmem
      · exact hc
      · exact ih c' hmem
    · rw [if_neg hc] at hc'
      simp at hc'

/-- Digit characters are not parentheses. -/
theorem digit_not_paren {c : Char} (h : is_digit c = true) : c ≠ '(' ∧ c ≠ ')' :=
  ⟨digit_ne h '(' (by decide), digit_ne h ')' (by decide)⟩

/-- A successful number parse strictly advances the cursor, stays inside
the input, and consumes no parentheses. -/
theorem parse_number_success : ∀ (s : List Char) (i : Nat) (v : Int) (j : Nat),
    parse_number s i = (some v, j) →
    i < j ∧ j ≤ s.length ∧ ∀ c ∈ seg s i j, c ≠ '(' ∧ c ≠ ')' := by
  intro s i v j h
  rw [parse_number] at h
  split_ifs at h with h1 h2 h3 h4 h5 h6
  · simp at h
  · simp at h
  · simp at h
  · -- sign, negative
    obtain ⟨-, h8⟩ := Prod.mk.injEq .. ▸ h
    refine ⟨by omega, ?_, ?_⟩
    · have hk := countDigits_le (s.drop (i + 1))
      rw [List.length_drop] at hk
      omega
    · intro c hc
      rw [← h8] at hc
      rw [seg_cons (by omega) (by omega)] at hc
      rcases List.mem_cons.mp hc with rfl | hmem
      · rcases h2 with h2 | h2 <;> rw [h2] <;> exact ⟨by decide, by decide⟩
      · have hseg : seg s (i + 1) (i + 1 + countDigits (s.drop (i + 1))) =
            (s.drop (i + 1)).take (countDigits (s.drop (i + 1))) := by
          rw [seg]
          congr 1
          omega
        rw [hseg] at hmem
        exact digit_not_paren (countDigits_take_digits _ c hmem)
  · -- sign, positive
    obtain ⟨-, h8⟩ := Prod.mk.injEq .. ▸ h
    refine ⟨by omega, ?_, ?_⟩
    · have hk := countDigits_le (s.drop (i + 1))
      rw [List.length_drop] at hk
      omega
    · intro c hc
      rw [← h8] at hc
      rw [seg_cons (by omega) (by omega)] at hc
      rcases List.mem_cons.mp hc with rfl | hmem
      · rcases h2 with h2 | h2 <;> rw [h2] <;> exact ⟨by decide, by decide⟩
      · have hseg : seg s (i + 1) (i + 1 + countDigits (s.drop (i + 1))) =
            (s.drop (i + 1)).take (countDigits (s.drop (i + 1))) := by
          rw [seg]
          congr 1
          omega
        rw [hseg] at hmem
        exact digit_not_paren (countDigits_take_digits _ c hmem)
  · simp at h
  · -- no sign
    obtain ⟨-, h8⟩ := Prod.mk.injEq .. ▸ h
    refine ⟨by omega, ?_, ?_⟩
    · have hk := countDigits_le (s.drop i)
      rw [List.length_drop] at hk
      omega
    · intro c hc
      rw [← h8] at hc
      have hseg : seg s i (i + countDigits (s.drop i)) =
          (s.drop i).take (countDigits (s.drop i)) := by
        rw [seg]
        congr 1
        omega
      rw [hseg] at hc
      exact digit_not_paren (countDigits_take_digits _ c hc)

/-- Two adjacent balanced slices compose to a balanced slice. -/
theorem scanBal_seg_compose {s : List Char} {a m b : Nat} (h1 : a ≤ m) (h2 : m ≤ b)
    (hA : scanBal (seg s a m) 0 = some 0) (hB : scanBal (seg s m b) 0 = some 0) :
    scanBal (seg s a b) 0 = some 0 := by
  rw [← seg_append h1 h2, scanBal_append, hA]
  exact hB

/-- The loop invariant of `parse_expression`: any returned next position is
at least the starting position, and a successful sub-expression parse
(`sub_expr = true`) strictly advances, ends inside the input, has a `)` as
its last consumed character, and consumes a parenthesis-balanced slice
before that close - so that `)` is the matching close of the enclosing
`(`. -/
theorem parse_loop_invariant : ∀ (f : Nat) (s : List Char) (r : Option Int) (op : Option Char)
    (ex : Bool) (i : Nat) (sub : Bool) (val : Option Int) (j : Nat) (ok : Bool),
    parse_loop s f r op ex i sub = some (val, j, ok) →
    i ≤ j ∧ (ok = true → sub = true →
      i < j ∧ j ≤ s.length ∧ s.getD (j - 1) ' ' = ')' ∧
      scanBal (seg s i (j - 1)) 0 = some 0) := by
  intro f
  induction f with
  | zero =>
    intro s r op ex i sub val j ok h
    rw [parse_loop] at h
    exact absurd h (by simp)
  | succ f ih =>
    intro s r op ex i sub val j ok h
    rw [parse_loop_succ] at h
    by_cases hin : i < s.length
    case neg =>
      rw [if_neg hin] at h
      by_cases hsub' : sub = true
      · rw [if_pos hsub'] at h
        simp only [Option.some.injEq, Prod.mk.injEq] at h
        obtain ⟨-, rfl, rfl⟩ := h
        exact ⟨le_refl i, by simp⟩
      · rw [if_neg hsub'] at h
        by_cases hres : r = none ∨ ex = true
        · rw [if_pos hres] at h
          simp only [Option.some.injEq, Prod.mk.injEq] at h
          obtain ⟨-, rfl, rfl⟩ := h
          exact ⟨le_refl i, by simp⟩
        · rw [if_neg hres] at h
          simp only [Option.some.injEq, Prod.mk.injEq] at h
          obtain ⟨-, rfl, rfl⟩ := h
          exact ⟨le_refl i, fun _ hs => absurd hs hsub'⟩
    case pos =>
      rw [if_pos hin] at h
      by_cases hex : ex = true
      case neg =>
        rw [if_neg hex] at h
        by_cases hop : s.getD i ' ' = '+' ∨ s.getD i ' ' = '-' ∨ s.getD i ' ' = '*' ∨
            s.getD i ' ' = '/'
        · rw [if_pos hop] at h
          obtain ⟨hij, hrest⟩ := ih s r (some (s.getD i ' ')) true (i + 1) sub val j ok h
          refine ⟨by omega, ?_⟩
          intro hok hsub'
          obtain ⟨hlt, hjlen, hcl, hbal⟩ := hrest hok hsub'
          refine ⟨by omega, hjlen, hcl, ?_⟩
          have hchunk : scanBal (seg s i (i + 1)) 0 = some 0 := by
            rw [seg_single hin]
            rcases hop with h' | h' | h' | h' <;> rw [h'] <;> decide
          exact scanBal_seg_compose (by omega) (by omega) hchunk hbal
        · rw [if_neg hop] at h
          by_cases hcl : s.getD i ' ' = ')'
          · rw [if_pos hcl] at h
            by_cases hsub' : sub = true
            · rw [if_pos hsub'] at h
              by_cases hres : r = none ∨ (op.isSome ∧ ex = true)
              · rw [if_pos hres] at h
                simp only [Option.some.injEq, Prod.mk.injEq] at h
                obtain ⟨-, rfl, rfl⟩ := h
                exact ⟨by omega, by simp⟩
              · rw [if_neg hres] at h
                simp only [Option.some.injEq, Prod.mk.injEq] at h
                obtain ⟨-, rfl, rfl⟩ := h
                refine ⟨by omega, fun _ _ => ⟨by omega, by omega, ?_, ?_⟩⟩
                · rw [show i + 1 - 1 = i from by omega]
                  exact hcl
                · rw [show i + 1 - 1 = i from by omega, seg_self]
                  rfl
            · rw [if_neg hsub'] at h
              simp only [Option.some.injEq, Prod.mk.injEq] at h
              obtain ⟨-, rfl, rfl⟩ := h
              exact ⟨le_refl i, by simp⟩
          · rw [if_neg hcl] at h
            simp only [Option.some.injEq, Prod.mk.injEq] at h
            obtain ⟨-, rfl, rfl⟩ := h
            exact ⟨le_refl i, by simp⟩
      case pos =>
        rw [if_pos hex] at h
        by_cases hc1 : (s.getD i ' ' = '+' ∨ s.getD i ' ' = '-') ∧ i + 1 < s.length ∧
            s.getD (i + 1) ' ' = '('
        · rw [if_pos hc1] at h
          cases hsubp : parse_loop s f none none true (i + 2) true with
          | none => rw [hsubp] at h; exact absurd h (by simp)
          | some trip =>
            obtain ⟨sv, ni, okk⟩ := trip
            rw [hsubp] at h
            cases okk with
            | false =>
              simp only [Option.some.injEq, Prod.mk.injEq] at h
              obtain ⟨-, rfl, rfl⟩ := h
              exact ⟨by omega, by simp⟩
            | true =>
              cases sv with
              | none =>
                simp only [Option.some.injEq, Prod.mk.injEq] at h
                obtain ⟨-, rfl, rfl⟩ := h
                exact ⟨by omega, by simp⟩
              | some v' =>
                simp only [] at h
                obtain ⟨hni2, hrest2⟩ := ih s none none true (i + 2) true (some v') ni true hsubp
                obtain ⟨hlt2, hnilen, hcl2, hbal2⟩ := hrest2 rfl rfl
                have hchunk : scanBal (seg s i ni) 0 = some 0 := by
                  rw [seg_cons hin (by omega), seg_cons (by omega : i + 1 < s.length) (by omega)]
                  rw [hc1.2.2]
                  have hlast : seg s (ni - 1) ni = [s.getD (ni - 1) ' '] := by
                    have h1 : ni - 1 < s.length := by omega
                    have h2 := seg_single h1
                    rwa [show ni - 1 + 1 = ni from by omega] at h2
                  have hseg3 : seg s (i + 2) ni =
                      seg s (i + 2) (ni - 1) ++ [s.getD (ni - 1) ' '] := by
                    rw [← hlast]
                    exact (seg_append (by omega) (by omega)).symm
                  rw [hseg3, hcl2]
                  have hw := scanBal_wrap hbal2
                  have hsign : s.getD i ' ' ≠ '(' ∧ s.getD i ' ' ≠ ')' := by
                    rcases hc1.1 with h' | h' <;> rw [h'] <;> exact ⟨by decide, by decide⟩
                  rw [scanBal, if_neg hsign.1, if_neg hsign.2]
                  exact hw
                cases hacc : parse_accum r op
                    ((if s.getD i ' ' = '-' then (-1 : Int) else 1) * v') with
                | none =>
                  rw [hacc] at h
                  simp only [Option.some.injEq, Prod.mk.injEq] at h
                  obtain ⟨-, rfl, rfl⟩ := h
                  exact ⟨by omega, by simp⟩
                | some r' =>
                  rw [hacc] at h
                  obtain ⟨hnij, hrest3⟩ := ih s r' op false ni sub val j ok h
                  refine ⟨by omega, ?_⟩
                  intro hok hsub'
                  obtain ⟨hlt3, hjlen3, hcl3, hbal3⟩ := hrest3 hok hsub'
                  exact ⟨by omega, hjlen3, hcl3,
                    scanBal_seg_compose (by omega) (by omega) hchunk hbal3⟩
        · rw [if_neg hc1] at h
          by_cases hc2 : s.getD i ' ' = '('
          · rw [if_pos hc2] at h
            cases hsubp : parse_loop s f none none true (i + 1) true with
            | none => rw [hsubp] at h; exact absurd h (by simp)
            | some trip =>
              obtain ⟨sv, ni, okk⟩ := trip
              rw [hsubp] at h
              cases okk with
              | false =>
                simp only [Option.some.injEq, Prod.mk.injEq] at h
                obtain ⟨-, rfl, rfl⟩ := h
                exact ⟨le_refl i, by simp⟩
              | true =>
                cases sv with
                | none =>
                  simp only [Option.some.injEq, Prod.mk.injEq] at h
                  obtain ⟨-, rfl, rfl⟩ := h
                  exact ⟨le_refl i, by simp⟩
                | some v' =>
                  simp only [] at h
                  obtain ⟨hni2, hrest2⟩ := ih s none none true (i + 1) true (some v') ni true hsubp
                  obtain ⟨hlt2, hnilen, hcl2, hbal2⟩ := hrest2 rfl rfl
                  have hchunk : scanBal (seg s i ni) 0 = some 0 := by
                    rw [seg_cons hin (by omega)]
                    rw [hc2]
                    have hlast : seg s (ni - 1) ni = [s.getD (ni - 1) ' '] := by
                      have h1 : ni - 1 < s.length := by omega
                      have h2 := seg_single h1
                      rwa [show ni - 1 + 1 = ni from by omega] at h2
                    have hseg3 : seg s (i + 1) ni =
                        seg s (i + 1) (ni - 1) ++ [s.getD (ni - 1) ' '] := by
                      rw [← hlast]
                      exact (seg_append (by omega) (by omega)).symm
                    rw [hseg3, hcl2]
                    exact scanBal_wrap hbal2
                  cases hacc : parse_accum r op v' with
                  | none =>
                    rw [hacc] at h
                    simp only [Option.some.injEq, Prod.mk.injEq] at h
                    obtain ⟨-, rfl, rfl⟩ := h
                    exact ⟨by omega, by simp⟩
                  | some r' =>
                    rw [hacc] at h
                    obtain ⟨hnij, hrest3⟩ := ih s r' op false ni sub val j ok h
                    refine ⟨by omega, ?_⟩
                    intro hok hsub'
                    obtain ⟨hlt3, hjlen3, hcl3, hbal3⟩ := hrest3 hok hsub'
                    exact ⟨by omega, hjlen3, hcl3,
                      scanBal_seg_compose (by omega) (by omega) hchunk hbal3⟩
          · rw [if_neg hc2] at h
            by_cases hc3 : is_digit (s.getD i ' ') ∨ s.getD i ' ' = '+' ∨ s.getD i ' ' = '-'
            · rw [if_pos hc3] at h
              cases hpn : parse_number s i with
              | mk pv pj =>
                rw [hpn] at h
                cases pv with
                | none =>
                  simp only [Option.some.injEq, Prod.mk.injEq] at h
                  obtain ⟨-, rfl, rfl⟩ := h
                  exact ⟨le_refl i, by simp⟩
                | some v' =>
                  simp only [] at h
                  obtain ⟨hipj, hpjlen, hchars⟩ := parse_number_success s i v' pj hpn
                  have hchunk : scanBal (seg s i pj) 0 = some 0 :=
                    scanBal_neutral _ 0 hchars
                  cases hacc : parse_accum r op v' with
                  | none =>
                    rw [hacc] at h
                    simp only [Option.some.injEq, Prod.mk.injEq] at h
                    obtain ⟨-, rfl, rfl⟩ := h
                    exact ⟨by omega, by simp⟩
                  | some r' =>
                    rw [hacc] at h
                    obtain ⟨hnij, hrest3⟩ := ih s r' op false pj sub val j ok h
                    refine ⟨by omega, ?_⟩
                    intro hok hsub'
                    obtain ⟨hlt3, hjlen3, hcl3, hbal3⟩ := hrest3 hok hsub'
                    exact ⟨by omega, hjlen3, hcl3,
                      scanBal_seg_compose (by omega) (by omega) hchunk hbal3⟩
            · rw [if_neg hc3] at h
              by_cases hc4 : s.getD i ' ' = ')'
              · rw [if_pos hc4] at h
                simp only [Option.some.injEq, Prod.mk.injEq] at h
                obtain ⟨-, rfl, rfl⟩ := h
                exact ⟨le_refl i, by simp⟩
              · rw [if_neg hc4] at h
                simp only [Option.some.injEq, Prod.mk.injEq] at h
                obtain ⟨-, rfl, rfl⟩ := h
                exact ⟨le_refl i, by simp⟩

/-- C9: the cursor never decreases; a successful number parse strictly
advances; and a sub-expression parse invoked for a parenthesized group that
succeeds consumes exactly through the matching close parenthesis (its final
consumed character is `)` and the slice before it is balanced, so this `)`
closes the group's `(`), or fails entirely. -/
theorem claim_C9 :
    (∀ (s : List Char) (i : Nat) (v : Int) (j : Nat),
      parse_number s i = (some v, j) → i < j) ∧
    (∀ (s : List Char) (f : Nat) (r : Option Int) (op : Option Char) (ex : Bool)
      (i : Nat) (sub : Bool) (val : Option Int) (j : Nat) (ok : Bool),
      parse_loop s f r op ex i sub = some (val, j, ok) → i ≤ j) ∧
    (∀ (s : List Char) (f : Nat) (i : Nat) (v : Int) (j : Nat),
      parse_expression s f i true = some (some v, j, true) →
      i < j ∧ j ≤ s.length ∧ s.getD (j - 1) ' ' = ')' ∧
        scanBal (seg s i (j - 1)) 0 = some 0) := by
  refine ⟨?_, ?_, ?_⟩
  · intro s i v j h
    exact (parse_number_success s i v j h).1
  · intro s f r op ex i sub val j ok h
    exact (parse_loop_invariant f s r op ex i sub val j ok h).1
  · intro s f i v j h
    rw [parse_expression] at h
    exact (parse_loop_invariant f s none none true i true (some v) j true h).2 rfl rfl

/-- Witness for C9: the number `42` parsed at 0 advances to 2; the loop on
`1+2` returns position 3 from 0; the sub-expression parse of `(1+2)`
started inside the group at position 1 ends at 5 with `)` last and the
interior `1+2` balanced. -/
theorem claim_C9_witness :
    (0 : Nat) < 2 ∧ (0 : Nat) ≤ 3 ∧
    ((1 : Nat) < 5 ∧ 5 ≤ (['(', '1', '+', '2', ')'] : List Char).length ∧
      (['(', '1', '+', '2', ')'] : List Char).getD (5 - 1) ' ' = ')' ∧
      scanBal (seg ['(', '1', '+', '2', ')'] 1 (5 - 1)) 0 = some 0) :=
  ⟨claim_C9.1 ['4', '2'] 0 42 2 (by decide),
   claim_C9.2.1 ['1', '+', '2'] 8 none none true 0 false (some 3) 3 true (by decide),
   claim_C9.2.2 ['(', '1', '+', '2', ')'] 10 1 3 5 (by decide)⟩
